import Mathlib

/-!
Verification of the EnvU `linku` subsystem (move-and-link orchestration,
bulk relocation, symlink deletion flow, and the TOML-ish link registry).

Each Python function of `src/linku` that the claims touch is shallowly
embedded as a Lean definition over explicit data:

* `move_dir_with_skip` (`symlink_ops.py`) is embedded over a `WalkEnv`
  describing the outcome of every primitive filesystem call the function
  makes (the initial atomic `shutil.move`, the `target.mkdir` of the
  destination root, each per-directory `mkdir` and each per-file
  `shutil.move` during the walk).  Python floats in the success-rate
  computation are modelled as exact rationals.
* `move_and_link` (`manager.py`, directory branch) is embedded as a
  function from a `MngEnv` of primitive outcomes to the returned boolean
  together with the trace of side-effecting calls it performs.
* `delete_symlink_interactive` (`manager.py`) likewise returns the trace of
  destructive actions it performs.
* `resolve_move_target` (`manager.py`) is a pure function of the four
  existence/kind probes it performs.
* `ConfigStore.record_link`, `ConfigStore._dump` and the fallback text
  parser of `ConfigStore.reload` (`config.py`) are embedded over
  `List Char` strings, with Python string primitives (`strip`, `split`,
  `replace`, `splitlines`, `rstrip`) given faithful `List Char`
  counterparts.
-/

namespace Linku

/-! ## BulkRelocator: `symlink_ops.move_dir_with_skip`

The walk structure of the source tree is fixed data; the environment
records, for every primitive filesystem call the Python function makes,
whether that call succeeds.  `os.walk` enumerates `dirs` in order; the
first entry plays the role of the source root itself. -/

/-- One regular file inside a walked directory: its name, whether the
per-file `shutil.move` would succeed, and the exception text if not. -/
structure FileEntry where
  name : String
  moveOk : Bool
  reason : String
deriving DecidableEq, Repr

/-- One directory yielded by `os.walk(source)`: its path, whether
`dst_dir.mkdir(parents=True, exist_ok=True)` succeeds for it, and its
files in order. -/
structure DirEntry where
  path : String
  mkdirOk : Bool
  files : List FileEntry
deriving DecidableEq, Repr

/-- Environment of `move_dir_with_skip`: outcome of the initial atomic
`shutil.move(source, target)`, outcome of `target.mkdir(parents=True,
exist_ok=True)` for the destination root, and the walked tree. -/
structure WalkEnv where
  atomicMoveOk : Bool
  rootMkdirOk : Bool
  dirs : List DirEntry
deriving DecidableEq, Repr

/-- `(success, moved_count, total_files)` as returned by the Python
function, together with the final value of its local `failed_files` list
and the trace of paths on which a per-file `shutil.move` was invoked. -/
structure MoveOutcome where
  success : Bool
  moved : Nat
  total : Nat
  failures : List (String × String)
  attempts : List (String)
deriving DecidableEq, Repr

/-- `str(Path(root) / fn)`: the full path of a walked file. -/
def filePath (d : DirEntry) (f : FileEntry) : String :=
  d.path ++ "/" ++ f.name

/-- Inner loop body of the walk: attempt `shutil.move(src_f, dst_f)`;
on success increment `moved_count`, on failure append `(path, reason)` to
`failed_files` and continue.  The accumulator is
`(moved_count, failed_files, attempted paths)`. -/
def fileStep (d : DirEntry) (a : Nat × List (String × String) × List String)
    (f : FileEntry) : Nat × List (String × String) × List String :=
  if f.moveOk then (a.1 + 1, a.2.1, a.2.2 ++ [filePath d f])
  else (a.1, a.2.1 ++ [(filePath d f, f.reason)], a.2.2 ++ [filePath d f])

/-- Outer loop body of the walk: if `dst_dir.mkdir` fails the directory is
skipped with `continue` (none of its files is attempted); otherwise every
file is attempted in order. -/
def dirStep (a : Nat × List (String × String) × List String) (d : DirEntry) :
    Nat × List (String × String) × List String :=
  if d.mkdirOk then d.files.foldl (fileStep d) a else a

/-- Embedding of `symlink_ops.move_dir_with_skip`.  Mirrors the source:
first the atomic whole-tree move (success returns `(True, 0, 0)`); on its
failure the walk-based fallback runs under a `try` whose only failure
point before the loops is the destination-root `mkdir` (its exception
reaches the outer handler, which returns `(False, 0, 0)`); `total_files`
is counted by a first complete walk; the per-file loop skips failures; the
success rate is `moved/total*100` (Python floats modelled as exact `ℚ`),
`100.0` when there are no files, and the returned flag is `rate ≥ 90`. -/
def move_dir_with_skip (env : WalkEnv) : MoveOutcome :=
  if env.atomicMoveOk then ⟨true, 0, 0, [], []⟩
  else if env.rootMkdirOk = false then ⟨false, 0, 0, [], []⟩
  else
    let total : Nat := (env.dirs.map (fun d => d.files.length)).sum
    let st := env.dirs.foldl dirStep (0, [], [])
    let rate : ℚ := if 0 < total then ((st.1 : ℚ) / (total : ℚ)) * 100 else 100
    ⟨decide ((90 : ℚ) ≤ rate), st.1, total, st.2.1, st.2.2⟩

/-- Paths of the files on which the walk invokes a per-file move: all
files of every directory whose destination `mkdir` succeeded, independent
of any per-file outcome. -/
def attemptedFiles (dirs : List DirEntry) : List String :=
  dirs.flatMap (fun d => if d.mkdirOk then d.files.map (filePath d) else [])

/-- The `(path, reason)` pairs accumulated in `failed_files`. -/
def failedFiles (dirs : List DirEntry) : List (String × String) :=
  dirs.flatMap (fun d =>
    if d.mkdirOk then
      d.files.filterMap (fun f =>
        if f.moveOk then none else some (filePath d f, f.reason))
    else [])

/-- Number of successfully moved files. -/
def movedCount (dirs : List DirEntry) : Nat :=
  (dirs.map (fun d => if d.mkdirOk then d.files.countP (·.moveOk) else 0)).sum

theorem files_foldl_eq (d : DirEntry) (files : List FileEntry)
    (a : Nat × List (String × String) × List String) :
    files.foldl (fileStep d) a =
      (a.1 + files.countP (·.moveOk),
       a.2.1 ++ files.filterMap (fun f =>
         if f.moveOk then none else some (filePath d f, f.reason)),
       a.2.2 ++ files.map (filePath d)) := by
  induction files generalizing a with
  | nil => simp
  | cons f t ih =>
    rcases a with ⟨m, fl, at_⟩
    by_cases h : f.moveOk
    · simp [fileStep, h, ih, List.countP_cons, List.append_assoc, Nat.add_comm,
        Nat.add_assoc, Nat.add_left_comm]
    · simp [fileStep, h, ih, List.countP_cons, List.append_assoc]

theorem dirs_foldl_eq (dirs : List DirEntry)
    (a : Nat × List (String × String) × List String) :
    dirs.foldl dirStep a =
      (a.1 + movedCount dirs, a.2.1 ++ failedFiles dirs,
       a.2.2 ++ attemptedFiles dirs) := by
  induction dirs generalizing a with
  | nil => simp [movedCount, failedFiles, attemptedFiles]
  | cons d t ih =>
    rcases a with ⟨m, fl, at_⟩
    by_cases h : d.mkdirOk
    · simp [dirStep, h, files_foldl_eq, ih, movedCount, failedFiles,
        attemptedFiles, List.append_assoc, Nat.add_assoc]
    · simp [dirStep, h, ih, movedCount, failedFiles, attemptedFiles,
        List.append_assoc]

theorem success_iff_nat (m T : Nat) :
    ((90 : ℚ) ≤ if 0 < T then ((m : ℚ) / (T : ℚ)) * 100 else 100) ↔
      90 * T ≤ 100 * m := by
  rcases Nat.eq_zero_or_pos T with hT | hT
  · subst hT; norm_num
  · have hT' : (0 : ℚ) < (T : ℚ) := by exact_mod_cast hT
    rw [if_pos hT, div_mul_eq_mul_div, le_div_iff₀ hT']
    constructor
    · intro h
      have h' : ((90 * T : ℕ) : ℚ) ≤ ((100 * m : ℕ) : ℚ) := by push_cast; linarith
      exact_mod_cast h'
    · intro h
      have h' : ((90 * T : ℕ) : ℚ) ≤ ((100 * m : ℕ) : ℚ) := by exact_mod_cast h
      push_cast at h'; linarith

/-- Kernel-friendly restatement of `move_dir_with_skip`: the rational
success-rate test is a natural-number comparison. -/
theorem move_dir_with_skip_eval (env : WalkEnv) :
    move_dir_with_skip env =
      if env.atomicMoveOk then ⟨true, 0, 0, [], []⟩
      else if env.rootMkdirOk = false then ⟨false, 0, 0, [], []⟩
      else
        ⟨decide (90 * (env.dirs.map (fun d => d.files.length)).sum ≤
            100 * movedCount env.dirs),
          movedCount env.dirs, (env.dirs.map (fun d => d.files.length)).sum,
          failedFiles env.dirs, attemptedFiles env.dirs⟩ := by
  by_cases h1 : env.atomicMoveOk
  · simp [move_dir_with_skip, h1]
  · by_cases h2 : env.rootMkdirOk
    · simp only [move_dir_with_skip, h1, h2, Bool.false_eq_true, if_false,
        Bool.true_eq_false, ite_false, dirs_foldl_eq, Nat.zero_add,
        List.nil_append]
      refine congrArg (fun b => MoveOutcome.mk b _ _ _ _) ?_
      exact decide_eq_decide.mpr (success_iff_nat _ _)
    · simp [move_dir_with_skip, h1, h2]

theorem rate_flag_iff (m T : Nat) :
    (decide ((90 : ℚ) ≤ if 0 < T then ((m : ℚ) / (T : ℚ)) * 100 else 100) = true) ↔
      (T = 0 ∨ (9 : ℚ) / 10 ≤ (m : ℚ) / (T : ℚ)) := by
  rw [decide_eq_true_iff]
  rcases Nat.eq_zero_or_pos T with hT | hT
  · subst hT; norm_num
  · have hT0 : T ≠ 0 := Nat.pos_iff_ne_zero.mp hT
    rw [if_pos hT]
    constructor
    · intro h; right; nlinarith [h]
    · rintro (h | h)
      · exact absurd h hT0
      · nlinarith [h]

/-- **C3** (confirmed): on a directory move performed by the walk-based
fallback (the atomic move failed, the destination root was created), the
returned flag is success if and only if `moved/total` is at least 90 %,
the rate being 100 % when there are no files at all. -/
theorem c3_fallback_success_iff_rate (env : WalkEnv)
    (h1 : env.atomicMoveOk = false) (h2 : env.rootMkdirOk = true) :
    (move_dir_with_skip env).success = true ↔
      ((move_dir_with_skip env).total = 0 ∨
        (9 : ℚ) / 10 ≤
          ((move_dir_with_skip env).moved : ℚ) / ((move_dir_with_skip env).total : ℚ)) := by
  simp only [move_dir_with_skip, h1, h2, Bool.false_eq_true, if_false,
    Bool.true_eq_false, ite_false]
  exact rate_flag_iff _ _

/-- A concrete fallback walk: one directory, two files, one of which fails
to move (rate 50 %, below threshold). -/
def walkEnvB : WalkEnv :=
  ⟨false, true, [⟨"s", true, [⟨"a.txt", true, ""⟩, ⟨"b.txt", false, "locked"⟩]⟩]⟩

theorem c3_fallback_success_iff_rate_witness :
    walkEnvB.atomicMoveOk = false ∧ walkEnvB.rootMkdirOk = true ∧
      ((move_dir_with_skip walkEnvB).success = true ↔
        ((move_dir_with_skip walkEnvB).total = 0 ∨
          (9 : ℚ) / 10 ≤
            ((move_dir_with_skip walkEnvB).moved : ℚ) /
              ((move_dir_with_skip walkEnvB).total : ℚ))) :=
  ⟨rfl, rfl, c3_fallback_success_iff_rate walkEnvB rfl rfl⟩

/-- **C9** (confirmed): in the walk-based fallback, an individual file-move
failure is never fatal — it is recorded as a `(path, reason)` pair in
`failed_files`, and the set of files on which a move is attempted is
exactly all files of every directory whose destination `mkdir` succeeded,
a set that does not depend on any per-file outcome, so the walk always
runs to completion.  Only failure to create the destination root aborts
immediately, returning `(False, 0, 0)` with nothing attempted. -/
theorem c9_skip_and_continue (env : WalkEnv) (h1 : env.atomicMoveOk = false) :
    (env.rootMkdirOk = false → move_dir_with_skip env = ⟨false, 0, 0, [], []⟩) ∧
    (env.rootMkdirOk = true →
      (move_dir_with_skip env).attempts = attemptedFiles env.dirs ∧
      (move_dir_with_skip env).failures = failedFiles env.dirs ∧
      (move_dir_with_skip env).total =
        (env.dirs.map (fun d => d.files.length)).sum) := by
  constructor
  · intro h2; simp [move_dir_with_skip, h1, h2]
  · intro h2; simp [move_dir_with_skip, h1, h2, dirs_foldl_eq]

theorem c9_skip_and_continue_witness :
    walkEnvB.atomicMoveOk = false ∧
      (walkEnvB.rootMkdirOk = true →
        (move_dir_with_skip walkEnvB).attempts = attemptedFiles walkEnvB.dirs ∧
        (move_dir_with_skip walkEnvB).failures = failedFiles walkEnvB.dirs ∧
        (move_dir_with_skip walkEnvB).total =
          (walkEnvB.dirs.map (fun d => d.files.length)).sum) :=
  ⟨rfl, (c9_skip_and_continue walkEnvB rfl).2⟩

/-- A tree with two real files, for exercising the fast path. -/
def walkEnvA : WalkEnv :=
  ⟨true, true, [⟨"s", true, [⟨"a.txt", true, ""⟩, ⟨"b.txt", true, ""⟩]⟩]⟩

/-- **C10** (confirmed): whenever the initial atomic whole-tree move
succeeds, `move_dir_with_skip` returns `(True, 0, 0)` regardless of the
tree's contents, so the fast-path counts never reflect the files actually
moved. -/
theorem c10_fast_path_zero_counts (env : WalkEnv) (h : env.atomicMoveOk = true) :
    move_dir_with_skip env = ⟨true, 0, 0, [], []⟩ := by
  simp [move_dir_with_skip, h]

theorem c10_fast_path_zero_counts_witness :
    walkEnvA.atomicMoveOk = true ∧
      move_dir_with_skip walkEnvA = ⟨true, 0, 0, [], []⟩ ∧
      (walkEnvA.dirs.map (fun d => d.files.length)).sum = 2 :=
  ⟨rfl, c10_fast_path_zero_counts walkEnvA rfl, rfl⟩

/-! ## Orchestrator: `SymlinkManager.move_and_link` (directory branch)

`move_and_link` runs under a `try`.  Inside it, for a directory source:
`target.parent.mkdir` (can raise), then `move_dir_with_skip` (never raises
— every failure path inside it is caught), then on success
`create_symlink(target, source)`, which calls `os_create_symlink` (returns
`(False, err)` on failure, never raises) and, only on success,
`config.record_link` (whose file save can raise).  The `except` handler
prints, then — under a nested `try` — moves the tree back from `target`
to `source` if `target.exists() and not source.exists()`, and returns
`False`.  A raising probe or rollback is swallowed by the nested handler. -/

/-- Side-effecting calls `move_and_link` can make, in order of appearance
in the source. -/
inductive Act where
  | mkdirParent
  | bulkMove
  | linkCreate
  | linkRecord
  | rollbackMove
deriving DecidableEq, Repr

/-- Environment of a directory `move_and_link` run: outcomes of each
primitive the function invokes. -/
structure MngEnv where
  walk : WalkEnv
  /-- does `target.parent.mkdir(parents=True, exist_ok=True)` raise? -/
  mkdirParentRaises : Bool
  /-- outcome of `os_create_symlink(target, source)` -/
  linkOk : Bool
  /-- does `config.record_link` (its file save) raise? -/
  recordRaises : Bool
  /-- value of `target.exists()` when the `except` handler probes it -/
  tgtExistsAtHandler : Bool
  /-- value of `source.exists()` when the `except` handler probes it -/
  srcExistsAtHandler : Bool
deriving DecidableEq, Repr

/-- Trace of the `except` handler of `move_and_link`: the compensating
move back runs only when `target.exists() and not source.exists()`. -/
def handlerTrace (env : MngEnv) : List Act :=
  if env.tgtExistsAtHandler = true ∧ env.srcExistsAtHandler = false then
    [Act.rollbackMove]
  else []

/-- Embedding of `SymlinkManager.move_and_link` for a directory source:
returns the boolean result and the trace of side-effecting calls. -/
def move_and_link_dir (env : MngEnv) : Bool × List Act :=
  if env.mkdirParentRaises then (false, Act.mkdirParent :: handlerTrace env)
  else
    let res := move_dir_with_skip env.walk
    if res.success then
      if env.linkOk then
        if env.recordRaises then
          (false, [Act.mkdirParent, Act.bulkMove, Act.linkCreate, Act.linkRecord]
            ++ handlerTrace env)
        else
          (true, [Act.mkdirParent, Act.bulkMove, Act.linkCreate, Act.linkRecord])
      else (false, [Act.mkdirParent, Act.bulkMove, Act.linkCreate])
    else (false, [Act.mkdirParent, Act.bulkMove])

/-- A run in which the tree move succeeds (fast path) and the subsequent
symlink creation fails; the handler probes are chosen so that a rollback
would be possible if it were ever attempted. -/
def mngEnvC1 : MngEnv :=
  { walk := walkEnvA
    mkdirParentRaises := false
    linkOk := false
    recordRaises := false
    tgtExistsAtHandler := true
    srcExistsAtHandler := false }

/-- **C1** (counterexample): a run in which the tree move to the
destination succeeds and the link creation at the original path fails,
yet `move_and_link` performs no compensating rollback — `os_create_symlink`
reports its failure by returning `(False, err)` rather than raising, so
the `except` branch that owns the rollback is never reached. -/
theorem c1_rollback_claim_cex :
    mngEnvC1.mkdirParentRaises = false ∧
      (move_dir_with_skip mngEnvC1.walk).success = true ∧
      mngEnvC1.linkOk = false ∧
      Act.rollbackMove ∉ (move_and_link_dir mngEnvC1).2 := by
  decide

/-- **C1** (amended): on link-creation failure after a successful move,
`move_and_link` attempts no rollback: it simply reports failure, leaving
the relocated tree at the destination with no link and no registry
record.  The rollback move-back runs only when an exception escapes the
`try` block, which a link-creation failure never does. -/
theorem c1_no_rollback_on_link_failure (env : MngEnv)
    (h1 : env.mkdirParentRaises = false)
    (h2 : (move_dir_with_skip env.walk).success = true)
    (h3 : env.linkOk = false) :
    move_and_link_dir env = (false, [Act.mkdirParent, Act.bulkMove, Act.linkCreate]) ∧
      Act.rollbackMove ∉ (move_and_link_dir env).2 ∧
      Act.linkRecord ∉ (move_and_link_dir env).2 := by
  refine ⟨?_, ?_, ?_⟩ <;> simp [move_and_link_dir, h1, h2, h3]

theorem c1_no_rollback_on_link_failure_witness :
    mngEnvC1.mkdirParentRaises = false ∧
      (move_dir_with_skip mngEnvC1.walk).success = true ∧
      mngEnvC1.linkOk = false ∧
      (move_and_link_dir mngEnvC1 =
          (false, [Act.mkdirParent, Act.bulkMove, Act.linkCreate]) ∧
        Act.rollbackMove ∉ (move_and_link_dir mngEnvC1).2 ∧
        Act.linkRecord ∉ (move_and_link_dir mngEnvC1).2) :=
  ⟨rfl, by decide, rfl, c1_no_rollback_on_link_failure mngEnvC1 rfl (by decide) rfl⟩

/-- **C8** (confirmed): when the bulk move reports failure, `move_and_link`
stops and returns failure having performed only the parent `mkdir` and the
bulk move itself: no symlink creation, no registry record, and no rollback
(the already-moved files stay at the destination). -/
theorem c8_move_failure_stops (env : MngEnv)
    (h1 : env.mkdirParentRaises = false)
    (h2 : (move_dir_with_skip env.walk).success = false) :
    move_and_link_dir env = (false, [Act.mkdirParent, Act.bulkMove]) ∧
      Act.linkCreate ∉ (move_and_link_dir env).2 ∧
      Act.linkRecord ∉ (move_and_link_dir env).2 ∧
      Act.rollbackMove ∉ (move_and_link_dir env).2 := by
  refine ⟨?_, ?_, ?_, ?_⟩ <;> simp [move_and_link_dir, h1, h2]

/-- A run whose walk fallback moves 1 of 2 files (below threshold). -/
def mngEnvC8 : MngEnv :=
  { walk := walkEnvB
    mkdirParentRaises := false
    linkOk := true
    recordRaises := false
    tgtExistsAtHandler := true
    srcExistsAtHandler := false }

theorem c8_move_failure_stops_witness :
    mngEnvC8.mkdirParentRaises = false ∧
      (move_dir_with_skip mngEnvC8.walk).success = false ∧
      (move_and_link_dir mngEnvC8 = (false, [Act.mkdirParent, Act.bulkMove]) ∧
        Act.linkCreate ∉ (move_and_link_dir mngEnvC8).2 ∧
        Act.linkRecord ∉ (move_and_link_dir mngEnvC8).2 ∧
        Act.rollbackMove ∉ (move_and_link_dir mngEnvC8).2) :=
  ⟨rfl, by rw [move_dir_with_skip_eval]; decide,
    c8_move_failure_stops mngEnvC8 rfl (by rw [move_dir_with_skip_eval]; decide)⟩

/-! ## Orchestrator: `SymlinkManager.delete_symlink_interactive` -/

/-- Destructive actions the deletion flow can perform: the filesystem
deletion (`os_delete_symlink`) and the registry purge
(`config.remove_link_record`). -/
inductive DelAct where
  | fsDelete
  | removeRecord
deriving DecidableEq, Repr

/-- Environment of one deletion run.  `isLinkProbe = none` models
`link.is_symlink()` raising, which the source turns into `False`. -/
structure DelEnv where
  isLinkProbe : Option Bool
  pathExists : Bool
  confirmOk : Bool
  deleteOk : Bool
deriving DecidableEq, Repr

/-- Embedding of `SymlinkManager.delete_symlink_interactive`: the trace of
destructive actions.  Mirrors the source: a path that neither exists nor
is a symlink only triggers a stale-record purge; a non-symlink is refused
with no action; otherwise, after confirmation, the link is deleted and on
success the record is purged. -/
def delete_symlink_interactive (env : DelEnv) : List DelAct :=
  let is_link := env.isLinkProbe.getD false
  if env.pathExists = false ∧ is_link = false then [DelAct.removeRecord]
  else if is_link = false then []
  else if env.confirmOk = false then []
  else DelAct.fsDelete :: (if env.deleteOk then [DelAct.removeRecord] else [])

/-- **C2** (confirmed): the deletion flow deletes the filesystem entry
only when the path was positively confirmed to be a symbolic link, and
when the path exists but is not a symlink it refuses and performs no
action at all (neither filesystem deletion nor registry mutation). -/
theorem c2_delete_only_confirmed_symlink (env : DelEnv) :
    (DelAct.fsDelete ∈ delete_symlink_interactive env →
      env.isLinkProbe = some true) ∧
    (env.pathExists = true → env.isLinkProbe.getD false = false →
      delete_symlink_interactive env = []) := by
  obtain ⟨p, e, c, d⟩ := env
  rcases p with _ | b
  · cases e <;> cases c <;> cases d <;> decide
  · cases b <;> cases e <;> cases c <;> cases d <;> decide

/-- An existing real (non-symlink) directory offered for deletion. -/
def delEnvReal : DelEnv := ⟨some false, true, true, true⟩

theorem c2_delete_only_confirmed_symlink_witness :
    delEnvReal.pathExists = true ∧ delEnvReal.isLinkProbe.getD false = false ∧
      delete_symlink_interactive delEnvReal = [] :=
  ⟨rfl, rfl, (c2_delete_only_confirmed_symlink delEnvReal).2 rfl rfl⟩

/-! ## Orchestrator: `SymlinkManager.resolve_move_target` -/

/-- The two possible final destinations the resolver can produce:
`destinationInput` itself, or `destinationInput / baseName(source)`. -/
inductive FinalDest where
  | input
  | joined
deriving DecidableEq, Repr

/-- Embedding of `SymlinkManager.resolve_move_target`, a pure function of
the four filesystem probes the source performs (`source.is_dir()`,
`target_input.exists()`, `target_input.is_dir()`,
`(target_input / source.name).exists()`).  The second component records
whether an error is reported.  The source performs no mutation: it only
probes. -/
def resolve_move_target (srcIsDir tgtExists tgtIsDir joinedExists : Bool) :
    FinalDest × Bool :=
  if srcIsDir then
    if tgtExists then (FinalDest.input, true) else (FinalDest.input, false)
  else
    if tgtExists then
      if tgtIsDir then
        if joinedExists then (FinalDest.joined, true)
        else (FinalDest.joined, false)
      else (FinalDest.input, true)
    else (FinalDest.input, false)

/-- The relocation-plan resolution exactly as claim C7 words it: directory
source with existing destination fails; file source into an existing
directory joins the base name, failing if that exact path exists; file
source onto an existing file fails; all remaining cases use the input as
the final destination. -/
def resolve_move_target_spec (srcIsDir tgtExists tgtIsDir joinedExists : Bool) :
    FinalDest × Bool :=
  if srcIsDir = true ∧ tgtExists = true then (FinalDest.input, true)
  else if srcIsDir = false ∧ tgtExists = true ∧ tgtIsDir = true then
    (FinalDest.joined, joinedExists)
  else if srcIsDir = false ∧ tgtExists = true ∧ tgtIsDir = false then
    (FinalDest.input, true)
  else (FinalDest.input, false)

/-- **C7** (confirmed): the resolver agrees with the claim's case analysis
on every combination of probe outcomes. -/
theorem c7_resolve_move_target_matches_spec :
    ∀ srcIsDir tgtExists tgtIsDir joinedExists : Bool,
      resolve_move_target srcIsDir tgtExists tgtIsDir joinedExists =
        resolve_move_target_spec srcIsDir tgtExists tgtIsDir joinedExists := by
  decide

/-! ## LinkRegistry: `ConfigStore.record_link` (config.py)

Registry strings are modelled as `List Char` (Python `str`). -/

/-- Python string, as a list of characters. -/
abbrev Str := List Char

/-- One record of the `links` list, holding the four fields that
`record_link` always writes. -/
structure LinkRec where
  link : Str
  target : Str
  type : Str
  created_at : Str
deriving DecidableEq, Repr

/-- `norm` inside `record_link` / `remove_link_record`: case-fold the key
when `os.name == 'nt'`, identity elsewhere.  `caseFold` plays the role of
the platform test; Python `str.lower`'s Unicode folding is modelled by
`Char.toLower`. -/
def normKey (caseFold : Bool) (s : Str) : Str :=
  if caseFold then s.map Char.toLower else s

/-- Does record `r` hold the same canonical key as `link`? -/
def sameKey (caseFold : Bool) (link : Str) (r : LinkRec) : Bool :=
  normKey caseFold r.link == normKey caseFold link

/-- `record_link`'s update path: the loop finds the first record with the
canonical key and overwrites its `target`, `type` and `created_at` in
place; the stored `link` spelling is kept. -/
def updateFirst (caseFold : Bool) (link target ty now : Str) :
    List LinkRec → List LinkRec
  | [] => []
  | r :: t =>
    if sameKey caseFold link r then
      { r with target := target, type := ty, created_at := now } :: t
    else r :: updateFirst caseFold link target ty now t

/-- Embedding of `ConfigStore.record_link` (minus the trailing `save`,
which persists but does not change the in-memory list): upsert over the
`links` list keyed by the canonicalized link path. -/
def record_link (caseFold : Bool) (links : List LinkRec)
    (link target ty now : Str) : List LinkRec :=
  if links.any (sameKey caseFold link) then
    updateFirst caseFold link target ty now links
  else links ++ [⟨link, target, ty, now⟩]

theorem countP_updateFirst (caseFold : Bool) (link target ty now : Str)
    (l : List LinkRec) :
    (updateFirst caseFold link target ty now l).countP (sameKey caseFold link) =
      l.countP (sameKey caseFold link) := by
  induction l with
  | nil => rfl
  | cons r t ih =>
    by_cases h : sameKey caseFold link r
    · have h' : sameKey caseFold link
          { r with target := target, type := ty, created_at := now } = true := h
      simp [updateFirst, h, h', List.countP_cons]
    · simp [updateFirst, h, List.countP_cons, ih]

theorem mem_updateFirst (caseFold : Bool) (link target ty now : Str)
    (l : List LinkRec) (hinv : l.countP (sameKey caseFold link) ≤ 1) :
    ∀ r ∈ updateFirst caseFold link target ty now l,
      sameKey caseFold link r = true →
        r.target = target ∧ r.type = ty ∧ r.created_at = now := by
  induction l with
  | nil => intro r hr; simp [updateFirst] at hr
  | cons r t ih =>
    by_cases h : sameKey caseFold link r
    · intro x hx hkey
      rw [updateFirst, if_pos h] at hx
      rcases List.mem_cons.mp hx with hx | hx
      · subst hx; exact ⟨rfl, rfl, rfl⟩
      · exfalso
        have ht : t.countP (sameKey caseFold link) = 0 := by
          have h2 := hinv
          rw [List.countP_cons, if_pos h] at h2
          omega
        exact absurd hkey (by simpa using List.countP_eq_zero.mp ht x hx)
    · intro x hx hkey
      rw [updateFirst, if_neg h] at hx
      rcases List.mem_cons.mp hx with hx | hx
      · subst hx; exact absurd hkey h
      · have ht : t.countP (sameKey caseFold link) ≤ 1 := by
          have h2 := hinv
          rw [List.countP_cons, if_neg h] at h2
          omega
        exact ih ht x hx hkey

theorem record_link_countP (caseFold : Bool) (links : List LinkRec)
    (link target ty now : Str)
    (hinv : links.countP (sameKey caseFold link) ≤ 1) :
    (record_link caseFold links link target ty now).countP
      (sameKey caseFold link) = 1 := by
  by_cases h : links.any (sameKey caseFold link)
  · rw [record_link, if_pos h, countP_updateFirst]
    have hpos : 0 < links.countP (sameKey caseFold link) :=
      List.countP_pos_iff.mpr (by simpa using List.any_eq_true.mp h)
    omega
  · rw [record_link, if_neg h, List.countP_append]
    have h0 : links.countP (sameKey caseFold link) = 0 := by
      rw [List.countP_eq_zero]
      intro a ha hkey
      exact h (List.any_eq_true.mpr ⟨a, ha, hkey⟩)
    have hnew : sameKey caseFold link ⟨link, target, ty, now⟩ = true := by
      simp [sameKey]
    simp [h0, hnew]

/-- **C4** (confirmed): starting from any registry satisfying the
at-most-one-record-per-canonical-key invariant for `L`, upserting
`(L, T1, k1)` and then `(L, T2, k2)` leaves exactly one record whose
canonical key is that of `L`, and that record carries `target = T2`,
`kind = k2` (and the second timestamp) — upserts never duplicate a key. -/
theorem c4_upsert_idempotent (caseFold : Bool) (links : List LinkRec)
    (L T1 k1 t1 T2 k2 t2 : Str)
    (hinv : links.countP (sameKey caseFold L) ≤ 1) :
    (record_link caseFold (record_link caseFold links L T1 k1 t1)
        L T2 k2 t2).countP (sameKey caseFold L) = 1 ∧
    ∀ r ∈ record_link caseFold (record_link caseFold links L T1 k1 t1)
        L T2 k2 t2,
      sameKey caseFold L r = true →
        r.target = T2 ∧ r.type = k2 ∧ r.created_at = t2 := by
  have h1 : (record_link caseFold links L T1 k1 t1).countP
      (sameKey caseFold L) = 1 :=
    record_link_countP caseFold links L T1 k1 t1 hinv
  have h1' : (record_link caseFold links L T1 k1 t1).countP
      (sameKey caseFold L) ≤ 1 := le_of_eq h1
  refine ⟨record_link_countP caseFold _ L T2 k2 t2 h1', ?_⟩
  have hany : (record_link caseFold links L T1 k1 t1).any
      (sameKey caseFold L) = true := by
    rw [List.any_eq_true]
    have := List.countP_pos_iff.mp (by omega : 0 <
      (record_link caseFold links L T1 k1 t1).countP (sameKey caseFold L))
    simpa using this
  rw [record_link, if_pos hany]
  exact mem_updateFirst caseFold L T2 k2 t2 _ h1'

/-- Concrete registry strings for the upsert witness. -/
def strL : Str := "C:/Data/App".data
def strT1 : Str := "D:/a1".data
def strT2 : Str := "D:/a2".data

theorem c4_upsert_idempotent_witness :
    ([] : List LinkRec).countP (sameKey true strL) ≤ 1 ∧
      ((record_link true (record_link true [] strL strT1 "目录".data "t1".data)
          strL strT2 "文件".data "t2".data).countP (sameKey true strL) = 1 ∧
        ∀ r ∈ record_link true
            (record_link true [] strL strT1 "目录".data "t1".data)
            strL strT2 "文件".data "t2".data,
          sameKey true strL r = true →
            r.target = strT2 ∧ r.type = "文件".data ∧ r.created_at = "t2".data) :=
  ⟨by decide,
    c4_upsert_idempotent true [] strL strT1 "目录".data "t1".data strT2
      "文件".data "t2".data (by decide)⟩

/-! ## LinkRegistry persistence: `ConfigStore._dump` and the fallback
text parser inside `ConfigStore.reload`

Python string primitives are embedded over `List Char`.  `splitlines` is
modelled on `'\n'` boundaries only: the dump separates lines with `'\n'`
alone, and the round-trip statement excludes values containing any of the
other Python line boundaries via `goodVal`. -/

/-- The characters Python `str.strip()` removes (ASCII whitespace; the
registry lines exercised here contain no exotic Unicode spacing). -/
def isPyWS (c : Char) : Bool :=
  c == ' ' || c == '\t' || c == '\n' || c == '\r' || c == '\x0b' || c == '\x0c'

/-- Python line boundaries recognised by `str.splitlines`. -/
def isPyLineBreak (c : Char) : Bool :=
  c == '\n' || c == '\r' || c == '\x0b' || c == '\x0c' || c == '\x1c' ||
  c == '\x1d' || c == '\x1e' || c == '\x85' || c == '\u2028' || c == '\u2029'

/-- Python `s.strip()`. -/
def pyStrip (s : Str) : Str :=
  ((s.dropWhile isPyWS).reverse.dropWhile isPyWS).reverse

/-- Python `s.rstrip()`. -/
def pyRstrip (s : Str) : Str :=
  (s.reverse.dropWhile isPyWS).reverse

/-- Python `s.strip('"')`: remove every leading and trailing quote. -/
def stripQuotes (s : Str) : Str :=
  ((s.dropWhile (· == '"')).reverse.dropWhile (· == '"')).reverse

/-- Python `s.splitlines()` on `'\n'` boundaries: no empty final line
after a trailing newline. -/
def pySplitlines : Str → List Str
  | [] => []
  | c :: t =>
    if c = '\n' then [] :: pySplitlines t
    else
      match pySplitlines t with
      | [] => [[c]]
      | l :: ls => (c :: l) :: ls

/-- `_escape`'s character action.  The source performs the two sequential
single-character replaces `s.replace('\\', '\\\\').replace('"', '\\"')`;
the first pass doubles backslashes and creates no quote, the second
rewrites each quote and touches no backslash, so together they act
per-character. -/
def escChar (c : Char) : Str :=
  if c = '\\' then ['\\', '\\']
  else if c = '"' then ['\\', '"']
  else [c]

/-- Embedding of `ConfigStore._escape`. -/
def esc : Str → Str
  | [] => []
  | c :: t => escChar c ++ esc t

/-- Intermediate form: backslashes doubled, quotes untouched. -/
def escBack : Str → Str
  | [] => []
  | c :: t => (if c = '\\' then ['\\', '\\'] else [c]) ++ escBack t

/-- Python `v.replace('\\"', '"')`: leftmost non-overlapping. -/
def replEscQuote : Str → Str
  | [] => []
  | [c] => [c]
  | c₁ :: c₂ :: t =>
    if c₁ = '\\' ∧ c₂ = '"' then '"' :: replEscQuote t
    else c₁ :: replEscQuote (c₂ :: t)

/-- Python `v.replace('\\\\', '\\')`: leftmost non-overlapping. -/
def replEscBack : Str → Str
  | [] => []
  | [c] => [c]
  | c₁ :: c₂ :: t =>
    if c₁ = '\\' ∧ c₂ = '\\' then '\\' :: replEscBack t
    else c₁ :: replEscBack (c₂ :: t)

/-- The parser's unescape: the quote pass, then the backslash pass, in
source order. -/
def unesc (s : Str) : Str := replEscBack (replEscQuote s)

/-- A parsed record: a Python dict in insertion order. -/
abbrev RawRec := List (Str × Str)

/-- Python `d[k] = v` on an insertion-ordered dict: overwrite in place or
append. -/
def dictSet (d : RawRec) (k v : Str) : RawRec :=
  match d with
  | [] => [(k, v)]
  | (k', v') :: t => if k' = k then (k', v) :: t else (k', v') :: dictSet t k v

/-- The in-memory model `{"config_version": …, "links": […]}`.  Both keys
are always present (the parser starts from the default and `setdefault`
restores them), so they are structure fields. -/
structure ConfigData where
  config_version : Int
  links : List RawRec
deriving DecidableEq, Repr

/-- Parser loop state: the version and the records so far, newest first
(the head is Python's `current` dict; `current is None` is the empty
list). -/
structure PState where
  version : Int
  recsRev : List RawRec
deriving DecidableEq, Repr

/-- Value of an ASCII digit. -/
def digitVal (c : Char) : Option Nat :=
  if '0' ≤ c ∧ c ≤ '9' then some (c.toNat - '0'.toNat) else none

/-- Decimal digit run to a number; `none` on empty or non-digit input. -/
def digitsToNat (s : Str) : Option Nat :=
  match s with
  | [] => none
  | _ =>
    s.foldl (fun acc c =>
      match acc, digitVal c with
      | some n, some d => some (n * 10 + d)
      | _, _ => none) (some 0)

/-- Approximation of Python `int(...)`: optional sign then decimal digits,
`none` modelling `ValueError` (or the `IndexError` of a missing part).
No claim depends on the parsed value. -/
def pyInt (s : Str) : Option Int :=
  match s with
  | '-' :: ds => (digitsToNat ds).map (fun n => -(n : Int))
  | '+' :: ds => (digitsToNat ds).map (fun n => (n : Int))
  | ds => (digitsToNat ds).map (fun n => (n : Int))

/-- `'config_version'`. -/
def cvKey : Str := "config_version".data

/-- `'[[links]]'`. -/
def linksHdr : Str := "[[links]]".data

/-- The `config_version` branch of the loop:
`int(s.split('=')[1].strip())` under the inner `try` whose `except: pass`
leaves the state unchanged on any failure. -/
def versionBranch (st : PState) (s : Str) : PState :=
  match (s.splitOn '=').get? 1 with
  | none => st
  | some v =>
    match pyInt (pyStrip v) with
    | none => st
    | some n => { st with version := n }

/-- One iteration of the fallback parse loop of `ConfigStore.reload`:
skip blank and comment lines; `config_version` lines update the version
(failures swallowed); `[[links]]` starts a new current record; `k = v`
lines are parsed into the current record when one exists (the value is
whitespace-stripped, quote-stripped, then unescaped); anything else is
ignored. -/
def processLine (st : PState) (line : Str) : PState :=
  let s := pyStrip line
  if s = [] then st
  else if s.head? = some '#' then st
  else if cvKey.isPrefixOf s then versionBranch st s
  else if s = linksHdr then { st with recsRev := [] :: st.recsRev }
  else if '=' ∈ s then
    match st.recsRev with
    | [] => st
    | cur :: rest =>
      let k := pyStrip (s.takeWhile (· ≠ '='))
      let v := unesc (stripQuotes (pyStrip ((s.dropWhile (· ≠ '=')).tail)))
      { st with recsRev := dictSet cur k v :: rest }
  else st

/-- The fallback parser of `ConfigStore.reload`: run the loop over the
split lines starting from the default model. -/
def parseFallback (s : Str) : ConfigData :=
  let st := (pySplitlines s).foldl processLine ⟨1, []⟩
  ⟨st.version, st.recsRev.reverse⟩

/-- `ConfigStore.reload` as the caller observes it.  The input is the
outcome of obtaining the file's text: `Except.error` stands for every
path the source maps to the default model (missing file, unreadable file,
a `tomllib` parse error caught by the outer `except`); `Except.ok s`
reaches the fallback text parser, which is total — each Python operation
inside the loop that can raise sits under the source's inner
`try/except: pass`, embedded in `versionBranch`'s `Option` matches. -/
def reload (input : Except Unit Str) : ConfigData :=
  match input with
  | Except.error _ => ⟨1, []⟩
  | Except.ok s => parseFallback s

/-- Decimal digit character. -/
def digitChar (k : Nat) : Char :=
  if k = 0 then '0' else if k = 1 then '1' else if k = 2 then '2'
  else if k = 3 then '3' else if k = 4 then '4' else if k = 5 then '5'
  else if k = 6 then '6' else if k = 7 then '7' else if k = 8 then '8'
  else '9'

/-- Decimal digits with explicit fuel (structural recursion, so the
kernel can evaluate it; the fuel `n` always suffices). -/
def natDigitsF : Nat → Nat → Str
  | 0, n => [digitChar n]
  | fuel + 1, n =>
    if n < 10 then [digitChar n]
    else natDigitsF fuel (n / 10) ++ [digitChar (n % 10)]

/-- Decimal digits of `n`, most significant first (Python `str(int)` for
non-negative input). -/
def natDigits (n : Nat) : Str := natDigitsF n n

/-- A `key = "escaped value"` line of `_dump`. -/
def fieldLine (k v : Str) : Str :=
  k ++ (' ' :: '=' :: ' ' :: '"' :: esc v) ++ ['"']

/-- The fixed first line of `_dump`. -/
def commentLine : Str := "# linku 配置（自动生成）".data

/-- The `config_version = n` line of `_dump`. -/
def versionLine (v : Nat) : Str := "config_version = ".data ++ natDigits v

/-- The non-blank lines a record contributes to `_dump`. -/
def blockCore (r : LinkRec) : List Str :=
  [linksHdr, fieldLine "link".data r.link, fieldLine "target".data r.target,
   fieldLine "type".data r.type, fieldLine "created_at".data r.created_at]

/-- One record's lines including the trailing blank line. -/
def recBlock (r : LinkRec) : List Str := blockCore r ++ [[]]

/-- The `lines` list built by `_dump` before joining. -/
def dumpLines (v : Nat) (recs : List LinkRec) : List Str :=
  commentLine :: versionLine v :: [] :: recs.flatMap recBlock

/-- `'\n'.join(lines)`. -/
def intercalateNL : List Str → Str
  | [] => []
  | [l] => l
  | l :: ls => l ++ '\n' :: intercalateNL ls

/-- Embedding of `ConfigStore._dump` for a registry whose records carry
all four fields: `'\n'.join(lines).rstrip() + '\n'`. -/
def dumpStr (v : Nat) (recs : List LinkRec) : Str :=
  pyRstrip (intercalateNL (dumpLines v recs)) ++ ['\n']

/-- `dumpLines` with the final blank line removed, reshaped so each block
is preceded instead of followed by its blank separator. -/
def trimLines (v : Nat) (recs : List LinkRec) : List Str :=
  commentLine :: versionLine v :: recs.flatMap (fun r => [] :: blockCore r)

/-- Values whose round-trip through the persisted format is faithful: no
Python line boundary inside (the escaping never escapes them) and no
trailing quote (Python `strip('"')` would eat the escaped quote together
with the delimiter). -/
def goodVal (s : Str) : Prop :=
  (∀ c ∈ s, isPyLineBreak c = false) ∧ s.getLast? ≠ some '"'

instance : DecidablePred goodVal := fun s => by
  unfold goodVal; infer_instance

/-- A record all four of whose fields round-trip faithfully. -/
def goodRec (r : LinkRec) : Prop :=
  goodVal r.link ∧ goodVal r.target ∧ goodVal r.type ∧ goodVal r.created_at

instance : DecidablePred goodRec := fun r => by
  unfold goodRec; infer_instance

/-- The dict the fallback parser should produce for record `r`: the four
`(key, value)` pairs in dump order. -/
def recAssoc (r : LinkRec) : RawRec :=
  [("link".data, r.link), ("target".data, r.target),
   ("type".data, r.type), ("created_at".data, r.created_at)]

theorem escChar_ne_nil (c : Char) : escChar c ≠ [] := by
  unfold escChar
  split
  · simp
  · split <;> simp

theorem escChar_getLast (c : Char) : (escChar c).getLast? = some c := by
  unfold escChar
  split
  · simp_all
  · split <;> simp_all

theorem esc_eq_nil_iff (v : Str) : esc v = [] ↔ v = [] := by
  cases v with
  | nil => simp [esc]
  | cons c t =>
    simp only [esc]
    constructor
    · intro h
      exact absurd (List.append_eq_nil.mp h).1 (escChar_ne_nil c)
    · intro h
      simp at h

theorem escBack_eq_nil_iff (v : Str) : escBack v = [] ↔ v = [] := by
  cases v with
  | nil => simp [escBack]
  | cons c t =>
    simp only [escBack]
    constructor
    · intro h
      have h1 := (List.append_eq_nil.mp h).1
      split at h1 <;> simp_all
    · intro h
      simp at h

theorem esc_head_ne_quote (v : Str) : (esc v).head? ≠ some '"' := by
  cases v with
  | nil => simp [esc]
  | cons c t =>
    simp only [esc, escChar]
    split
    · simp
    · split
      · simp
      · next h1 h2 =>
        simp only [List.singleton_append, List.head?_cons]
        intro h
        exact h2 (by simpa using h)

theorem esc_getLast? (v : Str) : (esc v).getLast? = v.getLast? := by
  induction v with
  | nil => rfl
  | cons c t ih =>
    rw [esc, List.getLast?_append, ih]
    cases t with
    | nil => simp [escChar_getLast]
    | cons x xs =>
      rcases h : (x :: xs).getLast? with _ | y
      · exact absurd (List.getLast?_eq_none_iff.mp h) (by simp)
      · simp [h]

theorem mem_esc (v : Str) (c : Char) (h : c ∈ esc v) : c = '\\' ∨ c ∈ v := by
  induction v with
  | nil => simp [esc] at h
  | cons x t ih =>
    rw [esc, List.mem_append] at h
    rcases h with h | h
    · unfold escChar at h
      by_cases hb : x = '\\'
      · rw [if_pos hb] at h
        simp at h
        left; exact h
      · rw [if_neg hb] at h
        by_cases hq : x = '"'
        · rw [if_pos hq] at h
          simp at h
          rcases h with rfl | rfl
          · left; rfl
          · right; rw [hq]; exact List.mem_cons_self _ _
        · rw [if_neg hq, List.mem_singleton] at h
          subst h
          right; exact List.mem_cons_self _ _
    · rcases ih h with h | h
      · left; exact h
      · right; exact List.mem_cons_of_mem x h

theorem replEscQuote_cons_backslash (X : Str) (h : X.head? ≠ some '"') :
    replEscQuote ('\\' :: X) = '\\' :: replEscQuote X := by
  cases X with
  | nil => rfl
  | cons x xs =>
    have hx : ¬('\\' = '\\' ∧ x = '"') := by
      rintro ⟨-, rfl⟩
      exact h rfl
    rw [replEscQuote, if_neg hx]

theorem replEscQuote_esc (v : Str) : replEscQuote (esc v) = escBack v := by
  induction v with
  | nil => rfl
  | cons c t ih =>
    by_cases hb : c = '\\'
    · subst hb
      show replEscQuote ('\\' :: '\\' :: esc t) = _
      have h1 : ¬('\\' = '\\' ∧ '\\' = '"') := by simp
      rw [replEscQuote, if_neg h1,
        replEscQuote_cons_backslash (esc t) (esc_head_ne_quote t), ih]
      simp [escBack]
    · by_cases hq : c = '"'
      · subst hq
        show replEscQuote ('\\' :: '"' :: esc t) = _
        rw [replEscQuote, if_pos ⟨rfl, rfl⟩, ih]
        simp [escBack, escChar]
      · have hesc : esc (c :: t) = c :: esc t := by
          simp [esc, escChar, hb, hq]
        rw [hesc]
        rcases hx : esc t with _ | ⟨x, xs⟩
        · rw [replEscQuote]
          rw [esc_eq_nil_iff] at hx
          subst hx
          simp [escBack, hb]
        · have hcx : ¬(c = '\\' ∧ x = '"') := by
            rintro ⟨hc, -⟩; exact hb hc
          rw [replEscQuote, if_neg hcx, ← hx, ih]
          simp [escBack, hb]

theorem replEscBack_escBack (v : Str) : replEscBack (escBack v) = v := by
  induction v with
  | nil => rfl
  | cons c t ih =>
    by_cases hb : c = '\\'
    · subst hb
      show replEscBack ('\\' :: '\\' :: escBack t) = _
      rw [replEscBack, if_pos ⟨rfl, rfl⟩, ih]
    · have h1 : escBack (c :: t) = c :: escBack t := by simp [escBack, hb]
      rw [h1]
      rcases hx : escBack t with _ | ⟨x, xs⟩
      · rw [replEscBack]
        rw [escBack_eq_nil_iff] at hx
        subst hx
        rfl
      · have hcx : ¬(c = '\\' ∧ x = '\\') := by
          rintro ⟨hc, -⟩; exact hb hc
        rw [replEscBack, if_neg hcx, ← hx, ih]

theorem unesc_esc (v : Str) : unesc (esc v) = v := by
  rw [unesc, replEscQuote_esc, replEscBack_escBack]

theorem stripQuotes_wrap (v : Str) (hlast : v.getLast? ≠ some '"') :
    stripQuotes ('"' :: (esc v ++ ['"'])) = esc v := by
  rcases hv : esc v with _ | ⟨e, es⟩
  · simp [stripQuotes]
  · rw [← hv]
    have hhead : ¬(e == '"') = true := by
      intro h
      exact esc_head_ne_quote v (by simp [hv, eq_of_beq h])
    have hfront :
        ('"' :: (esc v ++ ['"'])).dropWhile (· == '"') = esc v ++ ['"'] := by
      rw [List.dropWhile_cons]
      simp only [beq_self_eq_true, if_true]
      rw [hv, List.cons_append, List.dropWhile_cons, if_neg hhead]
    rw [stripQuotes, hfront]
    have hrev : (esc v ++ ['"']).reverse = '"' :: (esc v).reverse := by
      simp
    rw [hrev, List.dropWhile_cons]
    simp only [beq_self_eq_true, if_true]
    have hlast' : ∀ c, ((esc v).reverse.head? = some c) → ¬(c == '"') = true := by
      intro c hc hb
      rw [List.head?_reverse, esc_getLast?] at hc
      exact hlast (by rw [hc, eq_of_beq hb])
    rcases hr : (esc v).reverse with _ | ⟨r, rs⟩
    · have : esc v = [] := by simpa using congrArg List.reverse hr
      rw [this]
      simp
    · rw [List.dropWhile_cons, if_neg (hlast' r (by rw [hr]; rfl))]
      rw [← hr]
      simp

theorem pyStrip_eq_self (s : Str)
    (h1 : ∀ c, s.head? = some c → isPyWS c = false)
    (h2 : ∀ c, s.getLast? = some c → isPyWS c = false) : pyStrip s = s := by
  have hfront : s.dropWhile isPyWS = s := by
    rcases hs : s with _ | ⟨c, t⟩
    · rfl
    · rw [List.dropWhile_cons, if_neg]
      rw [h1 c (by rw [hs]; rfl)]
      simp
  rw [pyStrip, hfront]
  have hback : s.reverse.dropWhile isPyWS = s.reverse := by
    rcases hr : s.reverse with _ | ⟨c, t⟩
    · rfl
    · rw [List.dropWhile_cons, if_neg]
      have : s.getLast? = some c := by
        rw [← List.head?_reverse, hr]; rfl
      rw [h2 c this]
      simp
  rw [hback, List.reverse_reverse]

theorem pyStrip_cons_ws (c : Char) (s : Str) (h : isPyWS c = true) :
    pyStrip (c :: s) = pyStrip s := by
  rw [pyStrip, pyStrip, List.dropWhile_cons, if_pos (by rw [h])]

theorem pyRstrip_append_newline (s : Str)
    (h : ∀ c, s.getLast? = some c → isPyWS c = false) :
    pyRstrip (s ++ ['\n']) = s := by
  rw [pyRstrip, List.reverse_append, List.reverse_singleton,
    List.singleton_append, List.dropWhile_cons, if_pos (by simp [isPyWS])]
  rcases hr : s.reverse with _ | ⟨c, t⟩
  · have hs : s = [] := by simpa using congrArg List.reverse hr
    simp [hs]
  · rw [List.dropWhile_cons, if_neg]
    · have h2 := congrArg List.reverse hr
      rw [List.reverse_reverse] at h2
      exact h2.symm
    · have : s.getLast? = some c := by
        rw [← List.head?_reverse, hr]; rfl
      rw [h c this]
      simp

theorem pySplitlines_append (l rest : Str) (h : '\n' ∉ l) :
    pySplitlines (l ++ '\n' :: rest) = l :: pySplitlines rest := by
  induction l with
  | nil => rw [List.nil_append, pySplitlines, if_pos rfl]
  | cons c t ih =>
    have hc : c ≠ '\n' := fun hc => h (hc ▸ List.mem_cons_self c t)
    have ht : '\n' ∉ t := fun hm => h (List.mem_cons_of_mem c hm)
    rw [List.cons_append, pySplitlines, if_neg hc, ih ht]

theorem intercalateNL_cons (l : Str) (ls : List Str) (h : ls ≠ []) :
    intercalateNL (l :: ls) = l ++ '\n' :: intercalateNL ls := by
  rcases ls with _ | ⟨x, xs⟩
  · exact absurd rfl h
  · rfl

theorem pySplitlines_intercalate (xs : List Str) (hne : xs ≠ [])
    (h : ∀ l ∈ xs, '\n' ∉ l) :
    pySplitlines (intercalateNL xs ++ ['\n']) = xs := by
  induction xs with
  | nil => exact absurd rfl hne
  | cons l ls ih =>
    rcases hls : ls with _ | ⟨x, xs'⟩
    · show pySplitlines (l ++ '\n' :: []) = [l]
      rw [pySplitlines_append l [] (h l (by simp))]
      rfl
    · rw [← hls]
      have hls' : ls ≠ [] := by rw [hls]; simp
      rw [intercalateNL_cons l ls hls', List.append_assoc, List.cons_append,
        pySplitlines_append l _ (h l (by simp)),
        ih (by rw [hls]; simp) (fun m hm => h m (List.mem_cons_of_mem l hm))]

theorem intercalateNL_append (xs ys : List Str) (hx : xs ≠ []) (hy : ys ≠ []) :
    intercalateNL (xs ++ ys) = intercalateNL xs ++ '\n' :: intercalateNL ys := by
  induction xs with
  | nil => exact absurd rfl hx
  | cons l ls ih =>
    rcases hls : ls with _ | ⟨x, xs'⟩
    · rw [List.cons_append, List.nil_append,
        intercalateNL_cons l ys hy]
      rfl
    · rw [← hls]
      have hls' : ls ≠ [] := by rw [hls]; simp
      have happ : ls ++ ys ≠ [] := by
        rw [hls]; simp
      rw [List.cons_append, intercalateNL_cons l (ls ++ ys) happ,
        intercalateNL_cons l ls hls', ih hls', List.append_assoc]
      rfl

theorem intercalateNL_concat_getLast? (xs : List Str) (z : Str) (hz : z ≠ []) :
    (intercalateNL (xs ++ [z])).getLast? = z.getLast? := by
  rcases xs with _ | ⟨x, xs'⟩
  · rfl
  · rw [intercalateNL_append (x :: xs') [z] (by simp) (by simp),
      List.getLast?_append]
    show (('\n' :: z).getLast?).or _ = _
    rcases hzl : z.getLast? with _ | y
    · exact absurd (List.getLast?_eq_none_iff.mp hzl) hz
    · have : ('\n' :: z).getLast? = some y := by
        rcases hz2 : z with _ | ⟨c, t⟩
        · exact absurd hz2 hz
        · rw [List.getLast?_cons_cons, ← hz2, hzl]
      simp [this, hzl]

theorem digitChar_props (k : Nat) :
    isPyWS (digitChar k) = false ∧ isPyLineBreak (digitChar k) = false ∧
      digitChar k ≠ '#' ∧ digitChar k ≠ '\n' := by
  unfold digitChar
  split_ifs <;> exact ⟨by decide, by decide, by decide, by decide⟩

theorem natDigitsF_mem (fuel : Nat) :
    ∀ n, ∀ c ∈ natDigitsF fuel n, ∃ k, c = digitChar k := by
  induction fuel with
  | zero =>
    intro n c hc
    rw [natDigitsF, List.mem_singleton] at hc
    exact ⟨n, hc⟩
  | succ fuel ih =>
    intro n c hc
    rw [natDigitsF] at hc
    split at hc
    · rw [List.mem_singleton] at hc
      exact ⟨n, hc⟩
    · rcases List.mem_append.mp hc with h2 | h2
      · exact ih (n / 10) c h2
      · exact ⟨n % 10, List.mem_singleton.mp h2⟩

theorem natDigits_mem (n : Nat) : ∀ c ∈ natDigits n, ∃ k, c = digitChar k :=
  natDigitsF_mem n n

theorem natDigitsF_getLast? (fuel n : Nat) :
    ∃ k, (natDigitsF fuel n).getLast? = some (digitChar k) := by
  cases fuel with
  | zero => exact ⟨n, rfl⟩
  | succ fuel =>
    rw [natDigitsF]
    split
    · exact ⟨n, by simp⟩
    · exact ⟨n % 10, List.getLast?_concat _⟩

theorem natDigits_getLast? (n : Nat) :
    ∃ k, (natDigits n).getLast? = some (digitChar k) :=
  natDigitsF_getLast? n n

theorem versionLine_split (v : Nat) :
    versionLine v = cvKey ++ (" = ".data ++ natDigits v) := by
  rw [versionLine, ← List.append_assoc]
  rfl

theorem versionLine_head? (v : Nat) : (versionLine v).head? = some 'c' := by
  rw [versionLine]
  rfl

theorem versionLine_ne_nil (v : Nat) : versionLine v ≠ [] := by
  intro h
  have := congrArg List.head? h
  rw [versionLine_head? v] at this
  simp at this

theorem versionLine_getLast? (v : Nat) :
    ∃ k, (versionLine v).getLast? = some (digitChar k) := by
  obtain ⟨k, hk⟩ := natDigits_getLast? v
  refine ⟨k, ?_⟩
  rw [versionLine, List.getLast?_append, hk]
  rfl

theorem pyStrip_versionLine (v : Nat) : pyStrip (versionLine v) = versionLine v := by
  apply pyStrip_eq_self
  · intro c hc
    rw [versionLine_head? v] at hc
    obtain rfl : 'c' = c := by simpa using hc
    decide
  · intro c hc
    obtain ⟨k, hk⟩ := versionLine_getLast? v
    rw [hk] at hc
    obtain rfl : digitChar k = c := by simpa using hc
    exact (digitChar_props k).1

theorem versionBranch_recsRev (st : PState) (s : Str) :
    (versionBranch st s).recsRev = st.recsRev := by
  rw [versionBranch]
  rcases h1 : (s.splitOn '=').get? 1 with _ | v2
  · simp [h1]
  · rcases h2 : pyInt (pyStrip v2) with _ | n
    · simp [h1, h2]
    · simp [h1, h2]

theorem processLine_versionLine (st : PState) (v : Nat) :
    (processLine st (versionLine v)).recsRev = st.recsRev := by
  rw [processLine]
  simp only [pyStrip_versionLine]
  rw [if_neg (versionLine_ne_nil v), if_neg (by rw [versionLine_head?]; simp),
    if_pos (by
      rw [ List.isPrefixOf_iff_prefix, versionLine_split]
      exact List.prefix_append _ _)]
  exact versionBranch_recsRev st (versionLine v)

theorem pyStrip_append_space (key : Str) (c0 : Char) (kt : Str)
    (hkey : key = c0 :: kt) (hhead : isPyWS c0 = false)
    (hlast : ∀ c, key.getLast? = some c → isPyWS c = false) :
    pyStrip (key ++ [' ']) = key := by
  rw [pyStrip]
  have hfront : (key ++ [' ']).dropWhile isPyWS = key ++ [' '] := by
    rw [hkey, List.cons_append, List.dropWhile_cons]
    rw [hhead]
    simp
  rw [hfront, List.reverse_append, List.reverse_singleton,
    List.singleton_append, List.dropWhile_cons, if_pos (by simp [isPyWS])]
  rcases hr : key.reverse with _ | ⟨c1, t1⟩
  · exfalso
    have := congrArg List.reverse hr
    rw [List.reverse_reverse] at this
    simp [hkey] at this
  · rw [List.dropWhile_cons, if_neg]
    · have h2 := congrArg List.reverse hr
      rw [List.reverse_reverse] at h2
      exact h2.symm
    · have : key.getLast? = some c1 := by
        rw [← List.head?_reverse, hr]; rfl
      rw [hlast c1 this]
      simp

theorem processLine_fieldLine (key v : Str) (st : PState) (cur : RawRec)
    (rest : List RawRec) (hrecs : st.recsRev = cur :: rest)
    (hv : goodVal v)
    (hk_ne : key ≠ [])
    (hk_head : key.head?.all (fun c => !isPyWS c && !(c == '#')) = true)
    (hk_last : key.getLast?.all (fun c => !isPyWS c) = true)
    (hk_eq : '=' ∉ key)
    (hk_cv1 : cvKey.isPrefixOf key = false)
    (hk_cv2 : key.isPrefixOf cvKey = false)
    (hk_lh : key.isPrefixOf linksHdr = false) :
    processLine st (fieldLine key v) =
      { st with recsRev := dictSet cur key v :: rest } := by
  rcases hkey : key with _ | ⟨c0, kt⟩
  · exact absurd hkey hk_ne
  rw [← hkey]
  have hc0 : key.head? = some c0 := by rw [hkey]; rfl
  have hc0p : (!isPyWS c0 && !(c0 == '#')) = true := by
    rw [hc0] at hk_head
    simpa using hk_head
  have hc0both : isPyWS c0 = false ∧ c0 ≠ '#' := by simpa using hc0p
  have hc0ws : isPyWS c0 = false := hc0both.1
  have hc0hash : c0 ≠ '#' := hc0both.2
  have hklast : ∀ c, key.getLast? = some c → isPyWS c = false := by
    intro c hc
    rw [hc] at hk_last
    simpa using hk_last
  -- the line, reassociated so the key is an outer prefix
  have hassoc : fieldLine key v =
      key ++ ((' ' :: '=' :: ' ' :: '"' :: esc v) ++ ['"']) := by
    rw [fieldLine, List.append_assoc]
  have hline_head : (fieldLine key v).head? = some c0 := by
    rw [hassoc, hkey]
    rfl
  have hline_last : (fieldLine key v).getLast? = some '"' := by
    rw [fieldLine]
    exact List.getLast?_concat _
  have hstrip : pyStrip (fieldLine key v) = fieldLine key v := by
    apply pyStrip_eq_self
    · intro c hc
      rw [hline_head] at hc
      obtain rfl : c0 = c := by simpa using hc
      exact hc0ws
    · intro c hc
      rw [hline_last] at hc
      obtain rfl : '"' = c := by simpa using hc
      decide
  have hne_nil : ¬(fieldLine key v = []) := by
    intro h
    rw [h] at hline_head
    simp at hline_head
  have hne_hash : ¬((fieldLine key v).head? = some '#') := by
    rw [hline_head]
    simpa using hc0hash
  have hkey_pre : key <+: fieldLine key v := by
    rw [hassoc]
    exact List.prefix_append _ _
  have hne_cv : ¬(cvKey.isPrefixOf (fieldLine key v) = true) := by
    intro h
    rw [ List.isPrefixOf_iff_prefix] at h
    rcases List.prefix_or_prefix_of_prefix h hkey_pre with h2 | h2
    · rw [← List.isPrefixOf_iff_prefix] at h2
      rw [hk_cv1] at h2
      exact Bool.false_ne_true h2
    · rw [← List.isPrefixOf_iff_prefix] at h2
      rw [hk_cv2] at h2
      exact Bool.false_ne_true h2
  have hne_lh : ¬(fieldLine key v = linksHdr) := by
    intro h
    have h2 : key <+: linksHdr := h ▸ hkey_pre
    rw [← List.isPrefixOf_iff_prefix, hk_lh] at h2
    exact Bool.false_ne_true h2
  have hmem_eq : '=' ∈ fieldLine key v := by
    rw [hassoc]
    refine List.mem_append.mpr (Or.inr ?_)
    simp
  have hkeyall : ∀ a ∈ key, (fun c => decide (c ≠ '=')) a = true := by
    intro a ha
    simp only [decide_eq_true_iff]
    intro h
    exact hk_eq (h ▸ ha)
  have htake : (fieldLine key v).takeWhile (· ≠ '=') = key ++ [' '] := by
    rw [hassoc, List.takeWhile_append_of_pos hkeyall]
    simp [List.cons_append, List.takeWhile_cons]
  have hdrop : (fieldLine key v).dropWhile (· ≠ '=') =
      '=' :: ' ' :: '"' :: (esc v ++ ['"']) := by
    rw [hassoc, List.dropWhile_append_of_pos hkeyall]
    simp [List.cons_append, List.dropWhile_cons]
  have hkpart : pyStrip ((fieldLine key v).takeWhile (· ≠ '=')) = key := by
    rw [htake]
    exact pyStrip_append_space key c0 kt hkey hc0ws hklast
  have hvpart :
      unesc (stripQuotes (pyStrip (((fieldLine key v).dropWhile (· ≠ '=')).tail))) =
        v := by
    rw [hdrop, List.tail_cons,
      pyStrip_cons_ws ' ' _ (by simp [isPyWS]),
      pyStrip_eq_self _
        (by
          intro c hc
          obtain rfl : '"' = c := by simpa using hc
          decide)
        (by
          intro c hc
          have : ('"' :: (esc v ++ ['"'])).getLast? = some '"' := by
            show (('"' :: esc v) ++ ['"']).getLast? = some '"'
            exact List.getLast?_concat _
          rw [this] at hc
          obtain rfl : '"' = c := by simpa using hc
          decide),
      stripQuotes_wrap v hv.2, unesc_esc]
  rw [processLine]
  simp only [hstrip]
  rw [if_neg hne_nil, if_neg hne_hash, if_neg hne_cv, if_neg hne_lh,
    if_pos hmem_eq, hrecs]
  simp only [hkpart, hvpart]

theorem processLine_nil (st : PState) : processLine st [] = st := rfl

theorem processLine_commentLine (st : PState) :
    processLine st commentLine = st := rfl

theorem processLine_linksHdr (st : PState) :
    processLine st linksHdr = { st with recsRev := [] :: st.recsRev } := rfl

theorem dictSet_four (k1 k2 k3 k4 v1 v2 v3 v4 : Str)
    (h12 : k1 ≠ k2) (h13 : k1 ≠ k3) (h14 : k1 ≠ k4)
    (h23 : k2 ≠ k3) (h24 : k2 ≠ k4) (h34 : k3 ≠ k4) :
    dictSet (dictSet (dictSet (dictSet [] k1 v1) k2 v2) k3 v3) k4 v4 =
      [(k1, v1), (k2, v2), (k3, v3), (k4, v4)] := by
  simp [dictSet, h12, h13, h14, h23, h24, h34]

theorem dict_chain (r : LinkRec) :
    dictSet (dictSet (dictSet (dictSet [] "link".data r.link)
        "target".data r.target) "type".data r.type)
      "created_at".data r.created_at = recAssoc r := by
  rw [recAssoc]
  exact dictSet_four _ _ _ _ _ _ _ _ (by decide) (by decide) (by decide)
    (by decide) (by decide) (by decide)

theorem foldl_block (r : LinkRec) (hr : goodRec r) (st : PState) :
    List.foldl processLine st ([] :: blockCore r) =
      { st with recsRev := recAssoc r :: st.recsRev } := by
  obtain ⟨h1, h2, h3, h4⟩ := hr
  simp only [blockCore]
  rw [List.foldl_cons, processLine_nil, List.foldl_cons, processLine_linksHdr,
    List.foldl_cons,
    processLine_fieldLine "link".data r.link _ [] st.recsRev rfl h1
      (by decide) (by decide) (by decide) (by decide) (by decide) (by decide)
      (by decide),
    List.foldl_cons,
    processLine_fieldLine "target".data r.target _ _ st.recsRev rfl h2
      (by decide) (by decide) (by decide) (by decide) (by decide) (by decide)
      (by decide),
    List.foldl_cons,
    processLine_fieldLine "type".data r.type _ _ st.recsRev rfl h3
      (by decide) (by decide) (by decide) (by decide) (by decide) (by decide)
      (by decide),
    List.foldl_cons,
    processLine_fieldLine "created_at".data r.created_at _ _ st.recsRev rfl h4
      (by decide) (by decide) (by decide) (by decide) (by decide) (by decide)
      (by decide),
    List.foldl_nil, dict_chain]

theorem foldl_blocks (recs : List LinkRec) (hgood : ∀ r ∈ recs, goodRec r)
    (st : PState) :
    List.foldl processLine st (recs.flatMap (fun r => [] :: blockCore r)) =
      { st with recsRev := (recs.map recAssoc).reverse ++ st.recsRev } := by
  induction recs generalizing st with
  | nil => simp
  | cons r t ih =>
    rw [List.flatMap_cons, List.foldl_append, foldl_block r (hgood r (by simp)) st,
      ih (fun x hx => hgood x (List.mem_cons_of_mem r hx))]
    simp [List.append_assoc]

theorem blank_shift (recs : List LinkRec) :
    ([] : Str) :: recs.flatMap recBlock =
      recs.flatMap (fun r => ([] : Str) :: blockCore r) ++ [([] : Str)] := by
  induction recs with
  | nil => rfl
  | cons r t ih =>
    rw [List.flatMap_cons, List.flatMap_cons, List.append_assoc, ← ih]
    simp [recBlock, List.append_assoc]

theorem dumpLines_eq (v : Nat) (recs : List LinkRec) :
    dumpLines v recs = trimLines v recs ++ [([] : Str)] := by
  rw [dumpLines, trimLines, blank_shift recs]
  rfl

theorem fieldLine_getLast? (k v : Str) :
    (fieldLine k v).getLast? = some '"' := by
  rw [fieldLine]
  exact List.getLast?_concat _

theorem fieldLine_ne_nil (k v : Str) : fieldLine k v ≠ [] := by
  intro h
  have := congrArg List.getLast? h
  rw [fieldLine_getLast?] at this
  simp at this

theorem trimLines_last_nonws (v : Nat) (recs : List LinkRec) :
    ∀ c, (intercalateNL (trimLines v recs)).getLast? = some c →
      isPyWS c = false := by
  intro c hc
  rcases List.eq_nil_or_concat recs with rfl | ⟨rs, r, rfl⟩
  · have ht : trimLines v [] = [commentLine] ++ [versionLine v] := by
      simp [trimLines]
    rw [ht, intercalateNL_concat_getLast? [commentLine] (versionLine v)
      (versionLine_ne_nil v)] at hc
    obtain ⟨k, hk⟩ := versionLine_getLast? v
    rw [hk] at hc
    obtain rfl : digitChar k = c := by simpa using hc
    exact (digitChar_props k).1
  · rw [List.concat_eq_append] at hc
    have ht : trimLines v (rs ++ [r]) =
        (commentLine :: versionLine v ::
          (rs.flatMap (fun x => ([] : Str) :: blockCore x) ++
            [([] : Str), linksHdr, fieldLine "link".data r.link,
              fieldLine "target".data r.target, fieldLine "type".data r.type]))
          ++ [fieldLine "created_at".data r.created_at] := by
      rw [trimLines, List.flatMap_append]
      simp [blockCore, List.append_assoc]
    rw [ht, intercalateNL_concat_getLast? _ _ (fieldLine_ne_nil _ _),
      fieldLine_getLast?] at hc
    obtain rfl : '"' = c := by simpa using hc
    decide

theorem dumpStr_eq (v : Nat) (recs : List LinkRec) :
    dumpStr v recs = intercalateNL (trimLines v recs) ++ ['\n'] := by
  rw [dumpStr, dumpLines_eq,
    intercalateNL_append (trimLines v recs) [([] : Str)]
      (by simp [trimLines]) (by simp),
    show intercalateNL [([] : Str)] = [] from rfl,
    pyRstrip_append_newline _ (trimLines_last_nonws v recs)]

theorem fieldLine_no_newline (k v : Str) (hk : '\n' ∉ k) (hv : goodVal v) :
    '\n' ∉ fieldLine k v := by
  intro h
  rw [fieldLine] at h
  rcases List.mem_append.mp h with h | h
  · rcases List.mem_append.mp h with h | h
    · exact hk h
    · simp only [List.mem_cons] at h
      rcases h with h | h | h | h | h
      · exact absurd h (by decide)
      · exact absurd h (by decide)
      · exact absurd h (by decide)
      · exact absurd h (by decide)
      · rcases mem_esc v '\n' h with h2 | h2
        · exact absurd h2 (by decide)
        · have := hv.1 '\n' h2
          exact absurd this (by decide)
  · rw [List.mem_singleton] at h
    exact absurd h (by decide)

theorem no_newline_trimLines (v : Nat) (recs : List LinkRec)
    (hgood : ∀ r ∈ recs, goodRec r) :
    ∀ l ∈ trimLines v recs, '\n' ∉ l := by
  intro l hl
  rw [trimLines] at hl
  rcases List.mem_cons.mp hl with rfl | hl
  · decide
  rcases List.mem_cons.mp hl with rfl | hl
  · intro hm
    rw [versionLine] at hm
    rcases List.mem_append.mp hm with h | h
    · exact absurd h (by decide)
    · obtain ⟨k, hk⟩ := natDigits_mem v '\n' h
      exact (digitChar_props k).2.2.2 hk.symm
  · obtain ⟨r, hr, hlr⟩ := List.mem_flatMap.mp hl
    obtain ⟨g1, g2, g3, g4⟩ := hgood r hr
    rcases List.mem_cons.mp hlr with rfl | hlr
    · simp
    rw [blockCore] at hlr
    rcases List.mem_cons.mp hlr with rfl | hlr
    · decide
    rcases List.mem_cons.mp hlr with rfl | hlr
    · exact fieldLine_no_newline _ _ (by decide) g1
    rcases List.mem_cons.mp hlr with rfl | hlr
    · exact fieldLine_no_newline _ _ (by decide) g2
    rcases List.mem_cons.mp hlr with rfl | hlr
    · exact fieldLine_no_newline _ _ (by decide) g3
    rcases List.mem_cons.mp hlr with rfl | hlr
    · exact fieldLine_no_newline _ _ (by decide) g4
    · simp at hlr

/-- A record whose `link` value ends in a quote character. -/
def badRec : LinkRec :=
  ⟨"a\"".data, "D:/t".data, "文件".data, "2024".data⟩

/-- A record with path-typical values, including a backslash and an
interior quote, all of which round-trip. -/
def goodRecA : LinkRec :=
  ⟨"C:\\data\\\"my app\" dir".data, "D:/archive/app".data, "目录".data,
    "2024-01-01T00:00:00+00:00".data⟩

/-- **C5** (counterexample): serializing a one-record registry whose
`link` value is `a"` and reparsing it with the repository's fallback
parser does not restore the record: Python `strip('"')` removes the
escaped trailing quote together with the closing delimiter, and the
remaining `a\` survives unescaping as `a\` — the reloaded registry holds
`link = a\` instead of `link = a"`. -/
theorem c5_roundtrip_cex :
    (reload (Except.ok (dumpStr 1 [badRec]))).links ≠ [recAssoc badRec] ∧
      (reload (Except.ok (dumpStr 1 [badRec]))).links =
        [[("link".data, "a\\".data), ("target".data, "D:/t".data),
          ("type".data, "文件".data), ("created_at".data, "2024".data)]] := by
  decide

/-- **C5** (amended): for every registry of records none of whose field
values contains a line-boundary character or ends in a quote character,
serializing with `_dump` and reparsing with the fallback parser of
`reload` yields exactly the same records — the same number, in order,
with identical `(link, target, type, created_at)` values, including
values containing interior quote or backslash characters. -/
theorem c5_roundtrip_amended (v : Nat) (recs : List LinkRec)
    (hgood : ∀ r ∈ recs, goodRec r) :
    (reload (Except.ok (dumpStr v recs))).links = recs.map recAssoc := by
  show (parseFallback (dumpStr v recs)).links = recs.map recAssoc
  simp only [parseFallback]
  rw [dumpStr_eq v recs,
    pySplitlines_intercalate (trimLines v recs) (by simp [trimLines])
      (no_newline_trimLines v recs hgood)]
  rw [trimLines, List.foldl_cons, processLine_commentLine, List.foldl_cons,
    foldl_blocks recs hgood (processLine ⟨1, []⟩ (versionLine v))]
  simp [processLine_versionLine]

theorem c5_roundtrip_amended_witness :
    (∀ r ∈ [goodRecA], goodRec r) ∧
      (reload (Except.ok (dumpStr 1 [goodRecA]))).links =
        [goodRecA].map recAssoc :=
  ⟨by decide, c5_roundtrip_amended 1 [goodRecA] (by decide)⟩

/-- **C6** (confirmed): loading the registry never surfaces an error to
the caller — `reload` is a total function into models.  Every path on
which the source raises while obtaining or parsing the file's content
(missing or unreadable file, `tomllib` error) is the `Except.error` input
and yields exactly the default model (version 1, no records); the
fallback text parser is total on every string, each potentially raising
operation inside its loop being guarded by the source's inner
`try/except: pass`.  A structurally corrupt text also degrades to the
default model. -/
theorem c6_reload_never_raises :
    (∀ input : Except Unit Str, ∃ d : ConfigData, reload input = d ∧
        (input = Except.error () → d = ⟨1, []⟩)) ∧
      reload (Except.ok "config_version = oops\n[[links\nlink == \"".data) =
        ⟨1, []⟩ := by
  constructor
  · intro input
    refine ⟨reload input, rfl, ?_⟩
    intro h
    subst h
    rfl
  · decide

theorem c6_reload_never_raises_witness :
    ∃ d : ConfigData, reload (Except.error ()) = d ∧
      ((Except.error () : Except Unit Str) = Except.error () → d = ⟨1, []⟩) :=
  c6_reload_never_raises.1 (Except.error ())

end Linku
